import Mathlib

/-!
Verification of the truskawka wire protocol (src/truskawka_lib/src/protocol.rs).

Byte buffers are modelled as `List Nat` (each element one byte). The
`bytes` crate operations `get_u32` and `split_to` panic when the buffer is
too short; we model a panic as the `none` case of an outer `Option` layer on
the fallible operations, so that panic-freedom is a provable statement.
All integers on the wire are big-endian unsigned 32-bit values; the Rust
`as u32` casts are modelled by reduction modulo 2 ^ 32 (which the byte
extraction in `u32be` performs implicitly).
-/

deriving instance DecidableEq for Except

namespace Protocol

/-- A request: an ordered sequence of ASCII strings, each string modelled as
its list of byte values (source: `struct Request { strings: Vec<AsciiString> }`). -/
structure Request where
  strings : List (List Nat)
deriving DecidableEq

/-- Error type for request decoding (source: `enum InvalidRequestError`
with variants `IOError` and `BadAsciiEncoding`). -/
inductive InvalidRequestError where
  | ioError
  | badAsciiEncoding
deriving DecidableEq

/-- The `ascii` crate accepts exactly byte sequences whose bytes are all
below 128 (7-bit ASCII); `AsciiString::from_ascii` fails otherwise. -/
def isAscii (bytes : List Nat) : Bool :=
  bytes.all (fun b => b < 128)

/-- Model of `Buf::get_u32`: read a big-endian u32 and advance past it.
Returns `none` (a panic in the `bytes` crate) when fewer than 4 bytes remain. -/
def getU32 : List Nat → Option (Nat × List Nat)
  | b0 :: b1 :: b2 :: b3 :: rest =>
      some (((b0 * 256 + b1) * 256 + b2) * 256 + b3, rest)
  | _ => none

/-- Model of `BytesMut::split_to len`: split off the first `len` bytes.
Returns `none` (a panic) when `len` exceeds the bytes remaining. -/
def splitTo (len : Nat) (src : List Nat) : Option (List Nat × List Nat) :=
  if len ≤ src.length then some (src.take len, src.drop len) else none

/-- Big-endian serialization of a u32 (model of `BufMut::put_u32` applied to
`n as u32`: the byte extraction reduces `n` modulo 2 ^ 32 on its own). -/
def u32be (n : Nat) : List Nat :=
  [n / 2 ^ 24 % 256, n / 2 ^ 16 % 256, n / 2 ^ 8 % 256, n % 256]

/-- The per-string loop of `RequestCodec::ready`: for each of the counted
strings, return `false` if fewer than 4 bytes remain, read the length, return
`false` if fewer than `len` bytes remain, else advance by `len`. -/
def readyLoop : Nat → List Nat → Bool
  | 0, _ => true
  | n + 1, src =>
    match getU32 src with
    | none => false
    | some (len, rest) =>
      if rest.length < len then false
      else readyLoop n (rest.drop len)

/-- `RequestCodec::ready`: `false` if fewer than 4 bytes are available, else
read the string count and walk the strings (source lines 27-45). The source
consumes from the `Bytes` view it is handed; the caller (`decode`) hands it a
clone, so the walk is modelled by pure recursion over the byte list. -/
def ready (src : List Nat) : Bool :=
  match getU32 src with
  | none => false
  | some (n_strings, rest) => readyLoop n_strings rest

/-- The per-string loop of `RequestCodec::read_frame`: read a length, split
that many bytes off, validate them as ASCII (`AsciiString::from_ascii`),
propagating a `BadAsciiEncoding` failure. Outer `none` is a panic of
`get_u32`/`split_to` on a too-short buffer. -/
def readStrings : Nat → List Nat → Option (Except InvalidRequestError (List (List Nat) × List Nat))
  | 0, src => some (Except.ok ([], src))
  | n + 1, src =>
    match getU32 src with
    | none => none
    | some (len, rest) =>
      match splitTo len rest with
      | none => none
      | some (s, rest2) =>
        if isAscii s then
          match readStrings n rest2 with
          | none => none
          | some (Except.error e) => some (Except.error e)
          | some (Except.ok (ss, rest3)) => some (Except.ok (s :: ss, rest3))
        else some (Except.error InvalidRequestError.badAsciiEncoding)

/-- `RequestCodec::read_frame` (source lines 47-57): read the string count,
then read that many length-delimited ASCII strings, returning the assembled
`Request` together with the unconsumed remainder of the buffer. -/
def read_frame (src : List Nat) : Option (Except InvalidRequestError (Request × List Nat)) :=
  match getU32 src with
  | none => none
  | some (n_strings, rest) =>
    match readStrings n_strings rest with
    | none => none
    | some (Except.error e) => some (Except.error e)
    | some (Except.ok (strings, rest2)) => some (Except.ok (⟨strings⟩, rest2))

/-- `Decoder::decode` for `RequestCodec` (source lines 64-69): check
readiness on a cloned, frozen view of the buffer; when not ready return
`Ok(None)` with the caller's buffer untouched, otherwise read one frame from
the buffer. The returned list is the state of the caller's buffer afterwards. -/
def decode (src : List Nat) : Option (Except InvalidRequestError (Option Request × List Nat)) :=
  if ready src then
    match read_frame src with
    | none => none
    | some (Except.error e) => some (Except.error e)
    | some (Except.ok (req, rest)) => some (Except.ok (some req, rest))
  else some (Except.ok (none, src))

/-- The per-string output of `Encoder::encode`: for each string, its length
as a big-endian u32 followed by its raw bytes, in original order. -/
def encodeStrings : List (List Nat) → List Nat
  | [] => []
  | s :: ss => u32be s.length ++ s ++ encodeStrings ss

/-- `Encoder::encode` for `RequestCodec` (source lines 75-88): write the
string count, then each string's length and bytes. -/
def encode (item : Request) : List Nat :=
  u32be item.strings.length ++ encodeStrings item.strings

/-- The number of bytes `Encoder::encode` reserves in the destination buffer
before writing (source lines 76-81): `(u32::BITS / 8) * 2` plus the summed
byte lengths of the strings. -/
def encodeReserveLen (item : Request) : Nat :=
  (32 / 8) * 2 + item.strings.foldl (fun acc s => acc + s.length) 0

/-- Well-formedness of an in-memory `Request` per the spec's programming
contract: the string count and every string length fit in a u32, and every
string holds only ASCII bytes. -/
def wellFormed (r : Request) : Prop :=
  r.strings.length < 2 ^ 32 ∧ ∀ s ∈ r.strings, s.length < 2 ^ 32 ∧ isAscii s = true

instance (r : Request) : Decidable (wellFormed r) := by
  unfold wellFormed; infer_instance

/-- The two-string example request of the source's tests
(`example_request_bytes`): the strings "xyz" and "abcd". -/
def exampleRequest : Request :=
  ⟨[[120, 121, 122], [97, 98, 99, 100]]⟩

/-- The length-delimited string slices a buffer declares, following the
spec's wording for stating the error-handling property: walk the count and
length fields exactly as the readiness check does, collecting each declared
slice (per-string loop). -/
def declaredSlicesLoop : Nat → List Nat → Option (List (List Nat))
  | 0, _ => some []
  | n + 1, src =>
    match getU32 src with
    | none => none
    | some (len, rest) =>
      match splitTo len rest with
      | none => none
      | some (s, rest2) =>
        match declaredSlicesLoop n rest2 with
        | none => none
        | some ss => some (s :: ss)

/-- The declared string slices of a whole frame: read the count, then
collect the declared slices. `none` when the buffer is structurally
incomplete. -/
def declaredSlices (src : List Nat) : Option (List (List Nat)) :=
  match getU32 src with
  | none => none
  | some (n_strings, rest) => declaredSlicesLoop n_strings rest

/-- Response status enumeration (source lines 91-95:
`enum ResponseStatusCode { Ok, Err, Nx }`). -/
inductive ResponseStatusCode where
  | Ok
  | Err
  | Nx
deriving DecidableEq

/-- Modelled from the spec: the source declares `InvalidResponseError`
(lines 104-111) with only an `IOError` variant and leaves the response codec
body unimplemented; spec sections 4.3 and 7 require an `UnknownStatus`
failure for a status code outside {0, 1, 2} and a Text Value encoding
failure for non-ASCII payload bytes, so those variants are added here. -/
inductive InvalidResponseError where
  | ioError
  | unknownStatus
  | badEncoding
deriving DecidableEq

/-- Modelled from the spec: mapping of wire status-code values, section 4.3:
0 = Ok, 1 = Err, 2 = Nx, anything else fails with `UnknownStatus` (never a
silent default). -/
def statusOfCode (code : Nat) : Except InvalidResponseError ResponseStatusCode :=
  match code with
  | 0 => Except.ok ResponseStatusCode.Ok
  | 1 => Except.ok ResponseStatusCode.Err
  | 2 => Except.ok ResponseStatusCode.Nx
  | _ => Except.error InvalidResponseError.unknownStatus

/-- Modelled from the spec: the source leaves the decode of `ResponseCodec`
(line 102) unimplemented; spec section 4.3 gives the wire format
`u32 status_code`, `u32 payload_length`, then `payload_length` bytes of Text
Value content. The status code is validated through `statusOfCode` and the
payload through the ASCII check; outer `none` again marks a read past the
end of the buffer. -/
def response_read_frame (src : List Nat) :
    Option (Except InvalidResponseError ((ResponseStatusCode × List Nat) × List Nat)) :=
  match getU32 src with
  | none => none
  | some (code, rest) =>
    match statusOfCode code with
    | Except.error e => some (Except.error e)
    | Except.ok status =>
      match getU32 rest with
      | none => none
      | some (len, rest2) =>
        match splitTo len rest2 with
        | none => none
        | some (payload, rest3) =>
          if isAscii payload then some (Except.ok ((status, payload), rest3))
          else some (Except.error InvalidResponseError.badEncoding)

theorem length_u32be (n : Nat) : (u32be n).length = 4 := rfl

theorem getU32_append_u32be (n : Nat) (rest : List Nat) (h : n < 2 ^ 32) :
    getU32 (u32be n ++ rest) = some (n, rest) := by
  simp only [u32be, getU32, List.cons_append, List.nil_append, Option.some.injEq,
    Prod.mk.injEq, and_true]
  omega

theorem getU32_eq_none : ∀ src : List Nat, src.length < 4 → getU32 src = none
  | [], _ => rfl
  | [_], _ => rfl
  | [_, _], _ => rfl
  | [_, _, _], _ => rfl
  | _ :: _ :: _ :: _ :: _, h => absurd h (by simp)

theorem splitTo_append (s rest : List Nat) :
    splitTo s.length (s ++ rest) = some (s, rest) := by
  simp [splitTo, List.take_left, List.drop_left]

theorem readyLoop_encodeStrings (ss : List (List Nat)) (t : List Nat)
    (h : ∀ s ∈ ss, s.length < 2 ^ 32) :
    readyLoop ss.length (encodeStrings ss ++ t) = true := by
  induction ss generalizing t with
  | nil => simp [readyLoop]
  | cons s ss ih =>
    have hs : s.length < 2 ^ 32 := h s (List.mem_cons_self s ss)
    simp only [encodeStrings, List.append_assoc, List.length_cons, readyLoop,
      getU32_append_u32be s.length _ hs]
    have hlen : ¬ (s ++ (encodeStrings ss ++ t)).length < s.length := by
      simp [List.length_append]
    rw [if_neg hlen, List.drop_left]
    exact ih t (fun x hx => h x (List.mem_cons_of_mem s hx))

theorem ready_encode_append (r : Request) (t : List Nat)
    (hc : r.strings.length < 2 ^ 32)
    (h : ∀ s ∈ r.strings, s.length < 2 ^ 32) :
    ready (encode r ++ t) = true := by
  obtain ⟨ss⟩ := r
  simp only [encode, List.append_assoc, ready, getU32_append_u32be _ _ hc]
  exact readyLoop_encodeStrings ss t h

theorem readStrings_encodeStrings (ss : List (List Nat)) (t : List Nat)
    (h : ∀ s ∈ ss, s.length < 2 ^ 32 ∧ isAscii s = true) :
    readStrings ss.length (encodeStrings ss ++ t) = some (Except.ok (ss, t)) := by
  induction ss generalizing t with
  | nil => simp [readStrings, encodeStrings]
  | cons s ss ih =>
    obtain ⟨hs, hascii⟩ := h s (List.mem_cons_self s ss)
    simp only [encodeStrings, List.append_assoc, List.length_cons, readStrings,
      getU32_append_u32be s.length _ hs, splitTo_append, hascii, if_true,
      ih t (fun x hx => h x (List.mem_cons_of_mem s hx))]

theorem read_frame_encode_append (r : Request) (t : List Nat)
    (h : wellFormed r) :
    read_frame (encode r ++ t) = some (Except.ok (r, t)) := by
  obtain ⟨ss⟩ := r
  obtain ⟨hc, hs⟩ := h
  simp only [encode, List.append_assoc, read_frame, getU32_append_u32be _ _ hc,
    readStrings_encodeStrings ss t hs]

theorem decode_encode_append (r : Request) (t : List Nat) (h : wellFormed r) :
    decode (encode r ++ t) = some (Except.ok (some r, t)) := by
  have hready : ready (encode r ++ t) = true :=
    ready_encode_append r t h.1 (fun s hs => (h.2 s hs).1)
  simp only [decode, hready, if_true, read_frame_encode_append r t h]

theorem readyLoop_short (n : Nat) (src : List Nat) (h : src.length < 4) :
    readyLoop (n + 1) src = false := by
  simp only [readyLoop, getU32_eq_none src h]

theorem readyLoop_take (ss : List (List Nat)) (j : Nat)
    (h : ∀ s ∈ ss, s.length < 2 ^ 32) (hj : j < (encodeStrings ss).length) :
    readyLoop ss.length ((encodeStrings ss).take j) = false := by
  induction ss generalizing j with
  | nil => simp [encodeStrings] at hj
  | cons s ss ih =>
    have hs : s.length < 2 ^ 32 := h s (List.mem_cons_self s ss)
    by_cases h4 : j < 4
    · rw [List.length_cons]
      refine readyLoop_short ss.length _ ?_
      have := List.length_take j (encodeStrings (s :: ss))
      omega
    · push_neg at h4
      obtain ⟨k, rfl⟩ : ∃ k, j = (u32be s.length).length + k :=
        ⟨j - 4, by rw [length_u32be]; omega⟩
      rw [length_u32be] at hj h4
      simp only [encodeStrings, List.append_assoc] at hj ⊢
      rw [List.take_append, List.length_cons]
      simp only [readyLoop, getU32_append_u32be s.length _ hs]
      simp only [List.length_append, length_u32be] at hj
      by_cases hk : k < s.length
      · have hlen : ((s ++ encodeStrings ss).take k).length < s.length := by
          rw [List.length_take, List.length_append]
          omega
        rw [if_pos hlen]
      · push_neg at hk
        obtain ⟨m, rfl⟩ : ∃ m, k = s.length + m := ⟨k - s.length, by omega⟩
        rw [List.take_append]
        have hlen : ¬ (s ++ (encodeStrings ss).take m).length < s.length := by
          rw [List.length_append]; omega
        rw [if_neg hlen, List.drop_left]
        exact ih m (fun x hx => h x (List.mem_cons_of_mem s hx)) (by omega)

theorem ready_take_encode (r : Request) (k : Nat)
    (hc : r.strings.length < 2 ^ 32)
    (h : ∀ s ∈ r.strings, s.length < 2 ^ 32)
    (hk : k < (encode r).length) :
    ready ((encode r).take k) = false := by
  obtain ⟨ss⟩ := r
  by_cases h4 : k < 4
  · have hlen : ((encode ⟨ss⟩).take k).length < 4 := by
      have := List.length_take k (encode ⟨ss⟩)
      omega
    simp only [ready, getU32_eq_none _ hlen]
  · push_neg at h4
    obtain ⟨j, rfl⟩ : ∃ j, k = (u32be ss.length).length + j :=
      ⟨k - 4, by rw [length_u32be]; omega⟩
    simp only [encode, List.length_append, length_u32be] at hk
    simp only [encode]
    rw [List.take_append]
    simp only [ready, getU32_append_u32be ss.length _ hc]
    exact readyLoop_take ss j h (by omega)

theorem readyLoop_eq_slices_isSome (n : Nat) (src : List Nat) :
    readyLoop n src = (declaredSlicesLoop n src).isSome := by
  induction n generalizing src with
  | zero => simp [readyLoop, declaredSlicesLoop]
  | succ n ih =>
    cases hG : getU32 src with
    | none => simp [readyLoop, declaredSlicesLoop, hG]
    | some p =>
      obtain ⟨len, rest⟩ := p
      by_cases hl : len ≤ rest.length
      · have hsplit : splitTo len rest = some (rest.take len, rest.drop len) := by
          simp [splitTo, hl]
        simp only [readyLoop, declaredSlicesLoop, hG, hsplit, ih (rest.drop len),
          if_neg (by omega : ¬ rest.length < len)]
        cases declaredSlicesLoop n (rest.drop len) <;> rfl
      · have hsplit : splitTo len rest = none := by simp [splitTo, hl]
        simp only [readyLoop, declaredSlicesLoop, hG, hsplit,
          if_pos (by omega : rest.length < len), Option.isSome_none]

theorem ready_eq_slices_isSome (src : List Nat) :
    ready src = (declaredSlices src).isSome := by
  unfold ready declaredSlices
  cases hG : getU32 src with
  | none => rfl
  | some p =>
    obtain ⟨n, rest⟩ := p
    exact readyLoop_eq_slices_isSome n rest

theorem isAscii_eq_false_iff (s : List Nat) :
    isAscii s = false ↔ ∃ b ∈ s, 128 ≤ b := by
  rw [Bool.eq_false_iff, Ne, isAscii, List.all_eq_true]
  push_neg
  simp only [ne_eq, decide_eq_true_eq, not_lt]

theorem readStrings_bad_slice (n : Nat) (src : List Nat) (slices : List (List Nat))
    (hsl : declaredSlicesLoop n src = some slices)
    (hbad : ∃ s ∈ slices, ∃ b ∈ s, 128 ≤ b) :
    readStrings n src = some (Except.error InvalidRequestError.badAsciiEncoding) := by
  induction n generalizing src slices with
  | zero =>
    simp only [declaredSlicesLoop, Option.some.injEq] at hsl
    subst hsl
    simp at hbad
  | succ n ih =>
    cases hG : getU32 src with
    | none => simp [declaredSlicesLoop, hG] at hsl
    | some p =>
      obtain ⟨len, rest⟩ := p
      cases hS : splitTo len rest with
      | none => simp [declaredSlicesLoop, hG, hS] at hsl
      | some q =>
        obtain ⟨s, rest2⟩ := q
        cases hL : declaredSlicesLoop n rest2 with
        | none => simp [declaredSlicesLoop, hG, hS, hL] at hsl
        | some ss =>
          have hslices : slices = s :: ss := by
            simp only [declaredSlicesLoop, hG, hS, hL, Option.some.injEq] at hsl
            exact hsl.symm
          subst hslices
          cases hA : isAscii s with
          | false => simp only [readStrings, hG, hS, hA, Bool.false_eq_true, if_false]
          | true =>
            have hbad2 : ∃ x ∈ ss, ∃ b ∈ x, 128 ≤ b := by
              obtain ⟨x, hx, b, hb, hge⟩ := hbad
              rcases List.mem_cons.mp hx with rfl | hx2
              · exfalso
                have := (isAscii_eq_false_iff x).mpr ⟨b, hb, hge⟩
                rw [hA] at this
                exact Bool.true_eq_false.mp this
              · exact ⟨x, hx2, b, hb, hge⟩
            simp only [readStrings, hG, hS, hA, if_true, ih rest2 ss hL hbad2]

theorem foldl_add_length (l : List (List Nat)) (init : Nat) :
    List.foldl (fun acc s => acc + s.length) init l = init + (l.map List.length).sum := by
  induction l generalizing init with
  | nil => simp
  | cons s ss ih => simp only [List.foldl_cons, ih, List.map_cons, List.sum_cons]; omega

theorem length_encodeStrings (ss : List (List Nat)) :
    (encodeStrings ss).length = (ss.map (fun s => 4 + s.length)).sum := by
  induction ss with
  | nil => simp [encodeStrings]
  | cons s ss ih =>
    simp only [encodeStrings, List.length_append, length_u32be, ih,
      List.map_cons, List.sum_cons]

/-- Claim C1: for every Request value r (the spec's programming contract
makes the string count and the string lengths fit in a u32, and the strings
hold ASCII bytes), decoding the bytes produced by encoding r yields r again,
with the whole frame consumed; the witness covers the empty-string-list
case. -/
theorem roundtrip_decode_encode (r : Request) (h : wellFormed r) :
    decode (encode r) = some (Except.ok (some r, [])) := by
  have h2 := decode_encode_append r [] h
  simpa using h2

/-- Witness for C1 at the empty request and at the two-string example
request of the source's tests. -/
theorem roundtrip_decode_encode_witness :
    decode (encode (Request.mk [])) = some (Except.ok (some (Request.mk []), [])) ∧
    decode (encode exampleRequest) = some (Except.ok (some exampleRequest, [])) :=
  ⟨roundtrip_decode_encode ⟨[]⟩ (by decide),
   roundtrip_decode_encode exampleRequest (by decide)⟩

/-- Claim C2: for every valid encoded Request frame, the readiness check
returns false on every strict leading fragment of the frame (every take of
fewer than all its bytes) and true on the frame followed by any trailing
bytes. -/
theorem ready_partial_false_full_true (r : Request)
    (hc : r.strings.length < 2 ^ 32)
    (h : ∀ s ∈ r.strings, s.length < 2 ^ 32) :
    (∀ k, k < (encode r).length → ready ((encode r).take k) = false) ∧
    (∀ t, ready (encode r ++ t) = true) :=
  ⟨fun k hk => ready_take_encode r k hc h hk,
   fun t => ready_encode_append r t hc h⟩

/-- Witness for C2 at the example request: not ready on its first 6 bytes,
ready with 3 trailing zero bytes appended. -/
theorem ready_partial_false_full_true_witness :
    ready ((encode exampleRequest).take 6) = false ∧
    ready (encode exampleRequest ++ [0, 0, 0]) = true :=
  ⟨(ready_partial_false_full_true exampleRequest (by decide) (by decide)).1 6 (by decide),
   (ready_partial_false_full_true exampleRequest (by decide) (by decide)).2 [0, 0, 0]⟩

/-- Claim C3: decoding a buffer holding one complete valid frame followed by
arbitrary trailing bytes consumes exactly the frame's bytes and leaves the
trailing bytes in the buffer, so a second readiness/decode cycle on the
remainder decodes the next frame correctly; for the concrete two-string
example the frame is exactly 19 bytes and 3 trailing zero bytes survive. -/
theorem decode_consumes_one_frame (r1 r2 : Request) (trailing : List Nat)
    (h1 : wellFormed r1) (h2 : wellFormed r2) :
    decode (encode r1 ++ (encode r2 ++ trailing)) =
      some (Except.ok (some r1, encode r2 ++ trailing)) ∧
    decode (encode r2 ++ trailing) = some (Except.ok (some r2, trailing)) ∧
    (encode exampleRequest).length = 19 ∧
    decode (encode exampleRequest ++ [0, 0, 0]) =
      some (Except.ok (some exampleRequest, [0, 0, 0])) :=
  ⟨decode_encode_append r1 _ h1, decode_encode_append r2 trailing h2,
   by decide, by decide⟩

/-- Witness for C3 at the example request followed by a one-string frame
and one junk byte. -/
theorem decode_consumes_one_frame_witness :
    decode (encode exampleRequest ++ (encode (Request.mk [[97]]) ++ [7])) =
      some (Except.ok (some exampleRequest, encode (Request.mk [[97]]) ++ [7])) :=
  (decode_consumes_one_frame exampleRequest ⟨[[97]]⟩ [7] (by decide) (by decide)).1

/-- Claim C4: the readiness check runs on a read-only clone of the
accumulated buffer; in particular, after a readiness check that returns
false, decode hands the caller's buffer back byte-for-byte unchanged. -/
theorem decode_not_ready_leaves_buffer (src : List Nat) (h : ready src = false) :
    decode src = some (Except.ok (none, src)) := by
  simp [decode, h]

/-- Witness for C4 at a 3-byte buffer. -/
theorem decode_not_ready_leaves_buffer_witness :
    decode [1, 2, 3] = some (Except.ok (none, [1, 2, 3])) :=
  decode_not_ready_leaves_buffer [1, 2, 3] (by decide)

/-- Claim C5: for every ready frame in which some declared length-delimited
string slice contains a byte at or above 128 at any position, decode returns
the bad-encoding variant of `InvalidRequestError` and never a Request value
(so never one with the string truncated or substituted). -/
theorem decode_bad_byte_errors (src : List Nat) (slices : List (List Nat))
    (hready : ready src = true)
    (hsl : declaredSlices src = some slices)
    (hbad : ∃ s ∈ slices, ∃ b ∈ s, 128 ≤ b) :
    decode src = some (Except.error InvalidRequestError.badAsciiEncoding) := by
  cases hG : getU32 src with
  | none => simp [declaredSlices, hG] at hsl
  | some p =>
    obtain ⟨n, rest⟩ := p
    have hslLoop : declaredSlicesLoop n rest = some slices := by
      simpa [declaredSlices, hG] using hsl
    have hrs := readStrings_bad_slice n rest slices hslLoop hbad
    simp only [decode, hready, if_true, read_frame, hG, hrs]

/-- Witness for C5 at a one-string frame whose single payload byte is 200. -/
theorem decode_bad_byte_errors_witness :
    decode [0, 0, 0, 1, 0, 0, 0, 1, 200] =
      some (Except.error InvalidRequestError.badAsciiEncoding) :=
  decode_bad_byte_errors [0, 0, 0, 1, 0, 0, 0, 1, 200] [[200]]
    (by decide) (by decide) ⟨[200], by decide, 200, by decide, by decide⟩

/-- Claim C6 counterexample: the claim says encode pre-sizes the output
buffer to 4 plus the sum over strings of (4 + string length); at the request
of two empty strings that demand is 12 bytes, but the code reserves
`(u32::BITS / 8) * 2` plus the summed string lengths, which is 8. -/
theorem encode_reserve_len_cex :
    encodeReserveLen ⟨[[], []]⟩ = 8 ∧ (encode ⟨[[], []]⟩).length = 12 ∧
    encodeReserveLen ⟨[[], []]⟩ ≠ 12 := by
  decide

/-- Claim C6 amended: encode reserves `(u32::BITS / 8) * 2` plus the summed
string byte lengths — 8 + Σ length, counting only two 4-byte integer fields
— while the bytes it actually writes total 4 plus the sum over strings of
(4 + string length), so the reservation equals the serialized length only
for single-string requests. -/
theorem encode_reserve_len_amended (r : Request) :
    encodeReserveLen r = 8 + (r.strings.map List.length).sum ∧
    (encode r).length = 4 + (r.strings.map (fun s => 4 + s.length)).sum := by
  constructor
  · show (32 / 8) * 2 + _ = _
    rw [foldl_add_length]
    omega
  · simp only [encode, List.length_append, length_u32be, length_encodeStrings]

/-- Claim C7: decoding a Response frame whose status code field is outside
{0, 1, 2} (for example 3) fails with the unknown-status error, while status
codes 0, 1 and 2 decode to the statuses Ok, Err and Nx respectively
(response decoding is modelled from the spec, the source leaving the
response codec unimplemented). -/
theorem response_status_decode (code : Nat) (payload t : List Nat)
    (hcode : code < 2 ^ 32) (hlen : payload.length < 2 ^ 32)
    (hascii : isAscii payload = true) :
    (code = 0 → response_read_frame (u32be code ++ (u32be payload.length ++ (payload ++ t))) =
        some (Except.ok ((ResponseStatusCode.Ok, payload), t))) ∧
    (code = 1 → response_read_frame (u32be code ++ (u32be payload.length ++ (payload ++ t))) =
        some (Except.ok ((ResponseStatusCode.Err, payload), t))) ∧
    (code = 2 → response_read_frame (u32be code ++ (u32be payload.length ++ (payload ++ t))) =
        some (Except.ok ((ResponseStatusCode.Nx, payload), t))) ∧
    (2 < code → response_read_frame (u32be code ++ (u32be payload.length ++ (payload ++ t))) =
        some (Except.error InvalidResponseError.unknownStatus)) := by
  refine ⟨?_, ?_, ?_, ?_⟩ <;> intro hc
  · subst hc
    simp only [response_read_frame, getU32_append_u32be 0 _ hcode,
      getU32_append_u32be payload.length _ hlen, splitTo_append, statusOfCode, hascii, if_true]
  · subst hc
    simp only [response_read_frame, getU32_append_u32be 1 _ hcode,
      getU32_append_u32be payload.length _ hlen, splitTo_append, statusOfCode, hascii, if_true]
  · subst hc
    simp only [response_read_frame, getU32_append_u32be 2 _ hcode,
      getU32_append_u32be payload.length _ hlen, splitTo_append, statusOfCode, hascii, if_true]
  · obtain ⟨m, rfl⟩ : ∃ m, code = m + 3 := ⟨code - 3, by omega⟩
    simp only [response_read_frame, getU32_append_u32be (m + 3) _ hcode, statusOfCode]

/-- Witness for C7 at status code 3 (unknown) and status code 0 (Ok) with a
one-byte payload. -/
theorem response_status_decode_witness :
    response_read_frame (u32be 3 ++ (u32be 1 ++ ([97] ++ []))) =
      some (Except.error InvalidResponseError.unknownStatus) ∧
    response_read_frame (u32be 0 ++ (u32be 1 ++ ([97] ++ []))) =
      some (Except.ok ((ResponseStatusCode.Ok, [97]), [])) :=
  ⟨(response_status_decode 3 [97] [] (by decide) (by decide) (by decide)).2.2.2 (by decide),
   (response_status_decode 0 [97] [] (by decide) (by decide) (by decide)).1 rfl⟩

/-- Claim C8: on a buffer with insufficient bytes for a complete frame the
readiness check returns false as a normal boolean outcome, and decode
neither panics (the `none` of the panic layer), nor returns an error, nor
returns any (partial) Request; concretely so for the first 6 bytes of the
example encoding. -/
theorem not_ready_no_error :
    (∀ src, ready src = false →
      decode src ≠ none ∧ (∀ e, decode src ≠ some (Except.error e)) ∧
      ∀ req rest, decode src ≠ some (Except.ok (some req, rest))) ∧
    ready ((encode exampleRequest).take 6) = false ∧
    decode ((encode exampleRequest).take 6) =
      some (Except.ok (none, (encode exampleRequest).take 6)) := by
  refine ⟨fun src h => ?_, by decide, by decide⟩
  simp [decode, h]

/-- Witness for C8: decode of a non-ready 6-byte buffer does not panic. -/
theorem not_ready_no_error_witness :
    decode [0, 0, 0, 2, 0, 0] ≠ none :=
  (not_ready_no_error.1 [0, 0, 0, 2, 0, 0] (by decide)).1

/-- Claim C9: encoding the request with strings "xyz" and "abcd" produces
exactly the big-endian bytes u32(2), u32(3), "xyz", u32(4), "abcd", and
decoding exactly those bytes reproduces the two strings in that order. -/
theorem example_request_roundtrip :
    encode exampleRequest =
      [0, 0, 0, 2, 0, 0, 0, 3, 120, 121, 122, 0, 0, 0, 4, 97, 98, 99, 100] ∧
    decode [0, 0, 0, 2, 0, 0, 0, 3, 120, 121, 122, 0, 0, 0, 4, 97, 98, 99, 100] =
      some (Except.ok (some exampleRequest, [])) := by
  decide

/-- Claim C10: every buffer that is structurally complete according to its
count and length fields is ready, with no condition on the payload bytes;
concretely, a frame whose single payload byte is 200 (not ASCII) is ready,
and the ASCII validation only happens during decode, which rejects it. -/
theorem ready_ignores_payload_content :
    (∀ src slices, declaredSlices src = some slices → ready src = true) ∧
    ready [0, 0, 0, 1, 0, 0, 0, 1, 200] = true ∧
    decode [0, 0, 0, 1, 0, 0, 0, 1, 200] =
      some (Except.error InvalidRequestError.badAsciiEncoding) := by
  refine ⟨fun src slices h => ?_, by decide, by decide⟩
  rw [ready_eq_slices_isSome, h]
  rfl

/-- Witness for C10 at a two-string frame whose first payload byte is 200. -/
theorem ready_ignores_payload_content_witness :
    ready [0, 0, 0, 2, 0, 0, 0, 1, 200, 0, 0, 0, 0] = true :=
  ready_ignores_payload_content.1 [0, 0, 0, 2, 0, 0, 0, 1, 200, 0, 0, 0, 0]
    [[200], []] (by decide)

end Protocol
